import Mathlib

/-!
Verification of the chunk-type codec from `src/chunk_type.rs` (pngme).

The Rust module defines a 4-byte PNG chunk-type tag `ChunkType` with a
private field `ct_bytes : [u8; 4]`, an error enum
`ChunkTypeDecodingError`, two validating constructors
(`TryFrom<[u8;4]>` and `FromStr`), a `Display` rendering, and six
boolean queries. Bytes are embedded as `Nat` (all byte values fit;
no arithmetic is performed on them, only comparisons, so no modular
reduction is needed). A Rust `&str` is embedded as its list of
characters together with the list of its UTF-8 bytes, since
`str::len` and `str::as_bytes` operate on the UTF-8 encoding.
-/

namespace Pngme

/-- Rust `u8::is_ascii_uppercase`: the byte is in `b'A'..=b'Z'` (65..=90). -/
def isAsciiUppercase (b : Nat) : Bool :=
  65 ≤ b && b ≤ 90

/-- Rust `u8::is_ascii_lowercase`: the byte is in `b'a'..=b'z'` (97..=122). -/
def isAsciiLowercase (b : Nat) : Bool :=
  97 ≤ b && b ≤ 122

/-- The error enum `ChunkTypeDecodingError` from `chunk_type.rs`:
`BadByte(u8)` carries an offending byte value, `BadLength(usize)`
carries an observed input length. -/
inductive ChunkTypeDecodingError where
  | BadByte : Nat → ChunkTypeDecodingError
  | BadLength : Nat → ChunkTypeDecodingError
deriving DecidableEq, Repr

/-- The struct `ChunkType { ct_bytes: [u8; 4] }`. The field is embedded
as a list of byte values; the length-4 invariant is proved from the
constructors rather than baked into the type (theorem for claim C8).
`derive(PartialEq, Eq)` on the Rust side is structural equality, which
is definitional equality of the one field here. -/
structure ChunkType where
  ct_bytes : List Nat
deriving DecidableEq, Repr

namespace ChunkType

/-- Method `ChunkType::bytes`: returns (a copy of) the stored byte array. -/
def bytes (c : ChunkType) : List Nat :=
  c.ct_bytes

/-- Method `ChunkType::is_critical`: byte 0 is ASCII uppercase. -/
def is_critical (c : ChunkType) : Bool :=
  isAsciiUppercase (c.ct_bytes.getD 0 0)

/-- Method `ChunkType::is_public`: byte 1 is ASCII uppercase. -/
def is_public (c : ChunkType) : Bool :=
  isAsciiUppercase (c.ct_bytes.getD 1 0)

/-- Method `ChunkType::is_reserved_bit_valid`: byte 2 is ASCII uppercase. -/
def is_reserved_bit_valid (c : ChunkType) : Bool :=
  isAsciiUppercase (c.ct_bytes.getD 2 0)

/-- Method `ChunkType::is_safe_to_copy`: byte 3 is ASCII lowercase. -/
def is_safe_to_copy (c : ChunkType) : Bool :=
  isAsciiLowercase (c.ct_bytes.getD 3 0)

/-- Method `ChunkType::is_valid`: defined as exactly `is_reserved_bit_valid`. -/
def is_valid (c : ChunkType) : Bool :=
  c.is_reserved_bit_valid

/-- Static method `ChunkType::is_valid_byte`: ASCII uppercase or ASCII lowercase. -/
def is_valid_byte (b : Nat) : Bool :=
  isAsciiUppercase b || isAsciiLowercase b

/-- The scanning loop shared by both constructors: walk the bytes in
order and return the first one failing `is_valid_byte`, or `none` if
all pass (the loops in `try_from` and `from_str` both return early on
the first offending byte). -/
def firstInvalidByte : List Nat → Option Nat
  | [] => none
  | b :: bs => if is_valid_byte b then firstInvalidByte bs else some b

/-- Embedding of `impl TryFrom<[u8; 4]> for ChunkType`: iterate over the four bytes;
on the first invalid one return `Err(BadByte(byte))`; otherwise store
exactly the input bytes. The `[u8; 4]` argument is passed as four
bytes, mirroring the fixed arity of the Rust array type. -/
def try_from (b0 b1 b2 b3 : Nat) : Except ChunkTypeDecodingError ChunkType :=
  match firstInvalidByte [b0, b1, b2, b3] with
  | some b => .error (.BadByte b)
  | none => .ok ⟨[b0, b1, b2, b3]⟩

/-- Embedding of `impl FromStr for ChunkType`, acting on the UTF-8 byte sequence of
the input (`s.len()` and `s.as_bytes()` are byte-level in Rust): if the
byte length is not 4 return `Err(BadLength(s.len()))`; then scan the
bytes in order, returning `Err(BadByte(byte))` at the first invalid
one; otherwise the scratch buffer `str_bytes` has been filled with
exactly the four input bytes in order, so the stored array is `s`. -/
def from_str (s : List Nat) : Except ChunkTypeDecodingError ChunkType :=
  if s.length ≠ 4 then .error (.BadLength s.length)
  else
    match firstInvalidByte s with
    | some b => .error (.BadByte b)
    | none => .ok ⟨s⟩

/-- Embedding of `impl fmt::Display for ChunkType`: write `char::from(*b)` for each
stored byte in order, with no separators and no terminator.
`char::from(u8)` maps a byte value to the Unicode code point of the
same value, i.e. `Char.ofNat`. -/
def render_as_text (c : ChunkType) : List Char :=
  c.ct_bytes.map (fun b => Char.ofNat b)

end ChunkType

/-- Rust's UTF-8 encoding of one Unicode scalar value (`char`), as
performed by `String`/`&str` storage: 1 byte below U+0080, 2 bytes
below U+0800, 3 bytes below U+10000, else 4 bytes. -/
def utf8EncodeChar (c : Char) : List Nat :=
  if c.toNat < 128 then [c.toNat]
  else if c.toNat < 2048 then
    [192 + c.toNat / 64, 128 + c.toNat % 64]
  else if c.toNat < 65536 then
    [224 + c.toNat / 4096, 128 + c.toNat / 64 % 64, 128 + c.toNat % 64]
  else
    [240 + c.toNat / 262144, 128 + c.toNat / 4096 % 64,
      128 + c.toNat / 64 % 64, 128 + c.toNat % 64]

/-- The UTF-8 byte sequence of a character sequence: the bytes a Rust
`&str` holding those characters consists of. -/
def utf8Encode : List Char → List Nat
  | [] => []
  | c :: cs => utf8EncodeChar c ++ utf8Encode cs

/-- Method `ChunkType::from_str` applied to a string given as its character
sequence: `FromStr` receives the `&str`, whose length and bytes are
those of the UTF-8 encoding. -/
def ChunkType.from_str_text (cs : List Char) : Except ChunkTypeDecodingError ChunkType :=
  ChunkType.from_str (utf8Encode cs)

/-- A character is an ASCII letter (the property "text consisting only
of ASCII letters" ranges over). -/
def isAsciiLetterChar (c : Char) : Bool :=
  ChunkType.is_valid_byte c.toNat

/-! ## Helper lemmas about the byte scan -/

namespace ChunkType

/-- If every byte passes the alphabet predicate, the scan finds nothing. -/
theorem firstInvalidByte_eq_none (bs : List Nat) (h : bs.all is_valid_byte = true) :
    firstInvalidByte bs = none := by
  induction bs with
  | nil => rfl
  | cons b bs ih =>
    simp only [List.all_cons, Bool.and_eq_true] at h
    simp [firstInvalidByte, h.1, ih h.2]

/-- If the scan finds nothing, every byte passes the alphabet predicate. -/
theorem all_of_firstInvalidByte_eq_none (bs : List Nat) (h : firstInvalidByte bs = none) :
    bs.all is_valid_byte = true := by
  induction bs with
  | nil => rfl
  | cons b bs ih =>
    cases hb : is_valid_byte b with
    | true =>
      rw [firstInvalidByte, if_pos hb] at h
      simp [List.all_cons, hb, ih h]
    | false =>
      rw [firstInvalidByte, if_neg (by simp [hb])] at h
      exact absurd h (by simp)

/-- The scan of a list whose prefix of valid bytes is followed by an
invalid byte stops at that byte. -/
theorem firstInvalidByte_append (pre : List Nat) (b : Nat) (post : List Nat)
    (hpre : pre.all is_valid_byte = true) (hb : is_valid_byte b = false) :
    firstInvalidByte (pre ++ b :: post) = some b := by
  induction pre with
  | nil => simp [firstInvalidByte, hb]
  | cons a pre ih =>
    simp only [List.all_cons, Bool.and_eq_true] at hpre
    simpa [firstInvalidByte, hpre.1] using ih hpre.2

/-- A list that is not all-valid splits as a valid prefix, the first
invalid byte, and a remainder. -/
theorem exists_firstInvalid_split (bs : List Nat) (h : ¬ bs.all is_valid_byte = true) :
    ∃ pre b post, bs = pre ++ b :: post ∧ pre.all is_valid_byte = true ∧
      is_valid_byte b = false := by
  induction bs with
  | nil => simp at h
  | cons a bs ih =>
    cases ha : is_valid_byte a with
    | false => exact ⟨[], a, bs, rfl, rfl, ha⟩
    | true =>
      have h' : ¬ bs.all is_valid_byte = true := by
        intro hall
        exact h (by simp [List.all_cons, ha, hall])
      obtain ⟨pre, b, post, heq, hpre, hb⟩ := ih h'
      exact ⟨a :: pre, b, post, by simp [heq], by simp [List.all_cons, ha, hpre], hb⟩

/-- Success value of `try_from` on an all-valid 4-byte array. -/
theorem try_from_eq_ok (b0 b1 b2 b3 : Nat)
    (h : [b0, b1, b2, b3].all is_valid_byte = true) :
    try_from b0 b1 b2 b3 = .ok ⟨[b0, b1, b2, b3]⟩ := by
  simp [try_from, firstInvalidByte_eq_none _ h]

/-- Success value of `from_str` on an all-valid 4-byte string. -/
theorem from_str_eq_ok (s : List Nat) (h4 : s.length = 4)
    (h : s.all is_valid_byte = true) :
    from_str s = .ok ⟨s⟩ := by
  simp [from_str, h4, firstInvalidByte_eq_none _ h]

/-- Inversion for `try_from`: success forces the stored bytes to be the
input and the input to be all-valid. -/
theorem try_from_ok_inv (b0 b1 b2 b3 : Nat) (t : ChunkType)
    (h : try_from b0 b1 b2 b3 = .ok t) :
    t.ct_bytes = [b0, b1, b2, b3] ∧ [b0, b1, b2, b3].all is_valid_byte = true := by
  unfold try_from at h
  cases hfi : firstInvalidByte [b0, b1, b2, b3] with
  | some b => rw [hfi] at h; exact absurd h (by simp)
  | none =>
    rw [hfi] at h
    have ht : t = ⟨[b0, b1, b2, b3]⟩ := by
      cases h
      rfl
    exact ⟨by rw [ht], all_of_firstInvalidByte_eq_none _ hfi⟩

/-- Inversion for `from_str`: success forces the stored bytes to be the
input, the input length to be 4, and the input to be all-valid. -/
theorem from_str_ok_inv (s : List Nat) (t : ChunkType)
    (h : from_str s = .ok t) :
    t.ct_bytes = s ∧ s.length = 4 ∧ s.all is_valid_byte = true := by
  by_cases hlen : s.length = 4
  · rw [from_str, if_neg (by simp [hlen])] at h
    cases hfi : firstInvalidByte s with
    | some b => rw [hfi] at h; exact absurd h (by simp)
    | none =>
      rw [hfi] at h
      have ht : t = ⟨s⟩ := by
        cases h
        rfl
      exact ⟨by rw [ht], hlen, all_of_firstInvalidByte_eq_none _ hfi⟩
  · rw [from_str, if_pos hlen] at h
    exact absurd h (by simp)

end ChunkType

/-! ## Helper lemmas about characters and UTF-8 -/

/-- An ASCII letter character has code point below 128. -/
theorem toNat_lt_of_letter (c : Char) (h : isAsciiLetterChar c = true) :
    c.toNat < 128 := by
  simp only [isAsciiLetterChar, ChunkType.is_valid_byte, isAsciiUppercase,
    isAsciiLowercase, Bool.or_eq_true, Bool.and_eq_true, decide_eq_true_eq] at h
  omega

/-- A code point below 128 encodes as the single identical byte. -/
theorem utf8EncodeChar_ascii (c : Char) (h : c.toNat < 128) :
    utf8EncodeChar c = [c.toNat] := by
  simp [utf8EncodeChar, h]

/-- Reading back a code point below 128 from `Char.ofNat`. -/
theorem toNat_ofNat_of_lt (b : Nat) (h : b < 128) : (Char.ofNat b).toNat = b := by
  have hv : Nat.isValidChar b := Or.inl (by omega)
  simp [Char.ofNat, hv, Char.ofNatAux, Char.toNat, UInt32.toNat, BitVec.toNat_ofNatLt]

/-- Every character encodes to at least one byte. -/
theorem utf8EncodeChar_length_pos (c : Char) : 1 ≤ (utf8EncodeChar c).length := by
  unfold utf8EncodeChar
  split
  · simp
  split
  · simp
  split
  · simp
  · simp

/-- A non-ASCII character encodes to at least two bytes. -/
theorem utf8EncodeChar_length_ge_two (c : Char) (h : 128 ≤ c.toNat) :
    2 ≤ (utf8EncodeChar c).length := by
  unfold utf8EncodeChar
  rw [if_neg (by omega)]
  split
  · simp
  split
  · simp
  · simp

/-- The encoding of a non-ASCII character contains a byte outside the
ASCII-letter alphabet (its leading byte is at least 192). -/
theorem exists_invalid_in_utf8EncodeChar (c : Char) (h : 128 ≤ c.toNat) :
    ∃ b ∈ utf8EncodeChar c, ChunkType.is_valid_byte b = false := by
  unfold utf8EncodeChar
  rw [if_neg (by omega)]
  by_cases h2 : c.toNat < 2048
  · rw [if_pos h2]
    refine ⟨192 + c.toNat / 64, by simp, ?_⟩
    simp only [ChunkType.is_valid_byte, isAsciiUppercase, isAsciiLowercase,
      Bool.or_eq_false_iff, Bool.and_eq_false_iff, decide_eq_false_iff_not]
    omega
  · rw [if_neg h2]
    by_cases h3 : c.toNat < 65536
    · rw [if_pos h3]
      refine ⟨224 + c.toNat / 4096, by simp, ?_⟩
      simp only [ChunkType.is_valid_byte, isAsciiUppercase, isAsciiLowercase,
        Bool.or_eq_false_iff, Bool.and_eq_false_iff, decide_eq_false_iff_not]
      omega
    · rw [if_neg h3]
      refine ⟨240 + c.toNat / 262144, by simp, ?_⟩
      simp only [ChunkType.is_valid_byte, isAsciiUppercase, isAsciiLowercase,
        Bool.or_eq_false_iff, Bool.and_eq_false_iff, decide_eq_false_iff_not]
      omega

/-- A byte of one character's encoding is a byte of the whole string's
encoding. -/
theorem mem_utf8Encode_of_mem (cs : List Char) (c : Char) (b : Nat)
    (hc : c ∈ cs) (hb : b ∈ utf8EncodeChar c) : b ∈ utf8Encode cs := by
  induction cs with
  | nil => cases hc
  | cons a cs ih =>
    simp only [utf8Encode, List.mem_append]
    rcases List.mem_cons.mp hc with h | h
    · subst h
      exact Or.inl hb
    · exact Or.inr (ih h)

/-- The UTF-8 encoding is at least as long as the character sequence. -/
theorem length_le_utf8Encode_length (cs : List Char) :
    cs.length ≤ (utf8Encode cs).length := by
  induction cs with
  | nil => simp [utf8Encode]
  | cons c cs ih =>
    simp only [utf8Encode, List.length_append, List.length_cons]
    have := utf8EncodeChar_length_pos c
    omega

/-- A string containing a non-ASCII character encodes to strictly more
bytes than it has characters. -/
theorem length_lt_of_mem_nonascii (cs : List Char) (c : Char)
    (hc : c ∈ cs) (h : 128 ≤ c.toNat) :
    cs.length + 1 ≤ (utf8Encode cs).length := by
  induction cs with
  | nil => cases hc
  | cons a cs ih =>
    simp only [utf8Encode, List.length_append, List.length_cons]
    rcases List.mem_cons.mp hc with hh | hh
    · have h2 : 2 ≤ (utf8EncodeChar a).length :=
        utf8EncodeChar_length_ge_two a (hh ▸ h)
      have h3 := length_le_utf8Encode_length cs
      omega
    · have h2 := ih hh
      have h3 := utf8EncodeChar_length_pos a
      omega

/-- Spec-side statement of the alphabet: the byte value lies in the
ASCII range of `A`-`Z` or of `a`-`z`. -/
def isLetterByte (b : Nat) : Prop :=
  (65 ≤ b ∧ b ≤ 90) ∨ (97 ≤ b ∧ b ≤ 122)

instance (b : Nat) : Decidable (isLetterByte b) := by
  unfold isLetterByte
  infer_instance

/-- The code's alphabet predicate agrees with the spec-side ranges. -/
theorem is_valid_byte_iff_isLetterByte (b : Nat) :
    ChunkType.is_valid_byte b = true ↔ isLetterByte b := by
  simp [ChunkType.is_valid_byte, isAsciiUppercase, isAsciiLowercase, isLetterByte]

/-- Letter bytes are ASCII (below 128). -/
theorem isLetterByte_lt (b : Nat) (h : isLetterByte b) : b < 128 := by
  rcases h with ⟨_, h⟩ | ⟨_, h⟩ <;> omega

/-! ## Claim theorems -/

/-- Claim C1, counterexample: the string "€h" has 2 characters (not 4),
yet `from_str` does not fail with `BadLength 2`: its UTF-8 encoding is
4 bytes long, so the length check passes and the scan fails with
`BadByte 226` (the leading byte of the euro sign). The claim's
"length ... in characters" reading is therefore false; the code
measures the length in UTF-8 bytes. -/
theorem C1_counterexample :
    (['€', 'h'] : List Char).length = 2 ∧
    ChunkType.from_str_text ['€', 'h'] = .error (.BadByte 226) ∧
    ChunkType.from_str_text ['€', 'h'] ≠ .error (.BadLength 2) := by
  refine ⟨rfl, rfl, ?_⟩
  intro h
  rw [show ChunkType.from_str_text ['€', 'h'] = .error (.BadByte 226) from rfl] at h
  exact absurd h (by simp)

/-- Claim C1 (amended): for every text input whose UTF-8 byte length is
not exactly 4, `from_str` fails with `BadLength` carrying that byte
length — before examining any byte, so even all-letter text of byte
length 3 or 5 yields `BadLength`, never `BadByte`. -/
theorem C1_length_rejection (cs : List Char)
    (h : (utf8Encode cs).length ≠ 4) :
    ChunkType.from_str_text cs = .error (.BadLength (utf8Encode cs).length) := by
  rw [ChunkType.from_str_text, ChunkType.from_str, if_pos h]

/-- Witness for C1: the all-letter text "abc" (3 bytes) is rejected
with `BadLength 3`. -/
theorem C1_length_rejection_witness :
    ChunkType.from_str_text ['a', 'b', 'c'] = .error (.BadLength 3) :=
  C1_length_rejection ['a', 'b', 'c'] (by decide)

/-- Claim C2: for every 4-byte array of ASCII letters, `try_from`
succeeds and the resulting value's `bytes` accessor returns exactly the
input bytes in order. -/
theorem C2_from_bytes_roundtrip (b0 b1 b2 b3 : Nat)
    (h0 : isLetterByte b0) (h1 : isLetterByte b1)
    (h2 : isLetterByte b2) (h3 : isLetterByte b3) :
    ∃ t, ChunkType.try_from b0 b1 b2 b3 = .ok t ∧ t.bytes = [b0, b1, b2, b3] := by
  refine ⟨⟨[b0, b1, b2, b3]⟩, ?_, rfl⟩
  exact ChunkType.try_from_eq_ok b0 b1 b2 b3 (by
    simp only [List.all_cons, List.all_nil, Bool.and_eq_true,
      is_valid_byte_iff_isLetterByte]
    exact ⟨h0, h1, h2, ⟨h3, trivial⟩⟩)

/-- Witness for C2 at the bytes of "RuSt". -/
theorem C2_witness :
    ∃ t, ChunkType.try_from 82 117 83 116 = .ok t ∧
      t.bytes = [82, 117, 83, 116] :=
  C2_from_bytes_roundtrip 82 117 83 116 (by decide) (by decide) (by decide) (by decide)

/-- Claim C3: a 4-byte input containing a non-letter makes both
constructors fail with `BadByte` carrying the leftmost byte failing the
alphabet test (scanning positions 0..4 in order), and no value is
constructed (the result is an error). -/
theorem C3_first_bad_byte (b0 b1 b2 b3 : Nat)
    (h : ¬ [b0, b1, b2, b3].all ChunkType.is_valid_byte = true) :
    ∃ b, ChunkType.try_from b0 b1 b2 b3 = .error (.BadByte b) ∧
      ChunkType.from_str [b0, b1, b2, b3] = .error (.BadByte b) ∧
      ((ChunkType.is_valid_byte b0 = false ∧ b = b0) ∨
       (ChunkType.is_valid_byte b0 = true ∧ ChunkType.is_valid_byte b1 = false ∧
         b = b1) ∨
       (ChunkType.is_valid_byte b0 = true ∧ ChunkType.is_valid_byte b1 = true ∧
         ChunkType.is_valid_byte b2 = false ∧ b = b2) ∨
       (ChunkType.is_valid_byte b0 = true ∧ ChunkType.is_valid_byte b1 = true ∧
         ChunkType.is_valid_byte b2 = true ∧ ChunkType.is_valid_byte b3 = false ∧
         b = b3)) := by
  cases hb0 : ChunkType.is_valid_byte b0 with
  | false =>
    exact ⟨b0, by simp [ChunkType.try_from, ChunkType.firstInvalidByte, hb0],
      by simp [ChunkType.from_str, ChunkType.firstInvalidByte, hb0],
      Or.inl ⟨rfl, rfl⟩⟩
  | true =>
    cases hb1 : ChunkType.is_valid_byte b1 with
    | false =>
      exact ⟨b1,
        by simp [ChunkType.try_from, ChunkType.firstInvalidByte, hb0, hb1],
        by simp [ChunkType.from_str, ChunkType.firstInvalidByte, hb0, hb1],
        Or.inr (Or.inl ⟨rfl, rfl, rfl⟩)⟩
    | true =>
      cases hb2 : ChunkType.is_valid_byte b2 with
      | false =>
        exact ⟨b2,
          by simp [ChunkType.try_from, ChunkType.firstInvalidByte, hb0, hb1, hb2],
          by simp [ChunkType.from_str, ChunkType.firstInvalidByte, hb0, hb1, hb2],
          Or.inr (Or.inr (Or.inl ⟨rfl, rfl, rfl, rfl⟩))⟩
      | true =>
        cases hb3 : ChunkType.is_valid_byte b3 with
        | false =>
          exact ⟨b3,
            by simp [ChunkType.try_from, ChunkType.firstInvalidByte,
              hb0, hb1, hb2, hb3],
            by simp [ChunkType.from_str, ChunkType.firstInvalidByte,
              hb0, hb1, hb2, hb3],
            Or.inr (Or.inr (Or.inr ⟨rfl, rfl, rfl, rfl, rfl⟩))⟩
        | true =>
          exact absurd (by simp [List.all_cons, hb0, hb1, hb2, hb3]) h

/-- Witness for C3 at the bytes of "Ru1t" (the digit `1` is byte 49). -/
theorem C3_witness :
    ∃ b, ChunkType.try_from 82 117 49 116 = .error (.BadByte b) ∧
      ChunkType.from_str [82, 117, 49, 116] = .error (.BadByte b) ∧
      ((ChunkType.is_valid_byte 82 = false ∧ b = 82) ∨
       (ChunkType.is_valid_byte 82 = true ∧ ChunkType.is_valid_byte 117 = false ∧
         b = 117) ∨
       (ChunkType.is_valid_byte 82 = true ∧ ChunkType.is_valid_byte 117 = true ∧
         ChunkType.is_valid_byte 49 = false ∧ b = 49) ∨
       (ChunkType.is_valid_byte 82 = true ∧ ChunkType.is_valid_byte 117 = true ∧
         ChunkType.is_valid_byte 49 = true ∧ ChunkType.is_valid_byte 116 = false ∧
         b = 116)) :=
  C3_first_bad_byte 82 117 49 116 (by decide)

/-- Claim C4: for every 4-character ASCII-letter text, `from_str`
succeeds and `Display` renders the resulting value back to the same
text, character by character, in order. -/
theorem C4_text_roundtrip (cs : List Char) (hlen : cs.length = 4)
    (hab : ∀ c ∈ cs, isAsciiLetterChar c = true) :
    ∃ t, ChunkType.from_str_text cs = .ok t ∧ ChunkType.render_as_text t = cs := by
  match cs, hlen with
  | [c0, c1, c2, c3], _ =>
    have h0 := hab c0 (by simp)
    have h1 := hab c1 (by simp)
    have h2 := hab c2 (by simp)
    have h3 := hab c3 (by simp)
    have e0 := utf8EncodeChar_ascii c0 (toNat_lt_of_letter c0 h0)
    have e1 := utf8EncodeChar_ascii c1 (toNat_lt_of_letter c1 h1)
    have e2 := utf8EncodeChar_ascii c2 (toNat_lt_of_letter c2 h2)
    have e3 := utf8EncodeChar_ascii c3 (toNat_lt_of_letter c3 h3)
    have henc : utf8Encode [c0, c1, c2, c3] =
        [c0.toNat, c1.toNat, c2.toNat, c3.toNat] := by
      simp [utf8Encode, e0, e1, e2, e3]
    refine ⟨⟨[c0.toNat, c1.toNat, c2.toNat, c3.toNat]⟩, ?_, ?_⟩
    · rw [ChunkType.from_str_text, henc]
      refine ChunkType.from_str_eq_ok _ (by simp) ?_
      simp only [List.all_cons, List.all_nil, Bool.and_eq_true]
      simp only [isAsciiLetterChar] at h0 h1 h2 h3
      exact ⟨h0, h1, h2, ⟨h3, trivial⟩⟩
    · simp [ChunkType.render_as_text, Char.ofNat_toNat]

/-- Witness for C4 at the text "RuSt". -/
theorem C4_witness :
    ∃ t, ChunkType.from_str_text ['R', 'u', 'S', 't'] = .ok t ∧
      ChunkType.render_as_text t = ['R', 'u', 'S', 't'] :=
  C4_text_roundtrip ['R', 'u', 'S', 't'] (by decide) (by decide)

/-- Claim C5: for every all-letter 4-byte array, `try_from` and
`from_str` applied to the text rendering of those bytes produce the
same value; and equality of values is structural, holding exactly when
the stored bytes agree. -/
theorem C5_path_equivalence (b0 b1 b2 b3 : Nat)
    (h0 : isLetterByte b0) (h1 : isLetterByte b1)
    (h2 : isLetterByte b2) (h3 : isLetterByte b3) :
    (∃ t, ChunkType.try_from b0 b1 b2 b3 = .ok t ∧
      ChunkType.from_str_text (ChunkType.render_as_text t) = .ok t) ∧
    (∀ t1 t2 : ChunkType, t1 = t2 ↔ t1.bytes = t2.bytes) := by
  constructor
  · have hall : [b0, b1, b2, b3].all ChunkType.is_valid_byte = true := by
      simp only [List.all_cons, List.all_nil, Bool.and_eq_true,
        is_valid_byte_iff_isLetterByte]
      exact ⟨h0, h1, h2, ⟨h3, trivial⟩⟩
    refine ⟨⟨[b0, b1, b2, b3]⟩, ChunkType.try_from_eq_ok b0 b1 b2 b3 hall, ?_⟩
    have hrender : ChunkType.render_as_text ⟨[b0, b1, b2, b3]⟩ =
        [Char.ofNat b0, Char.ofNat b1, Char.ofNat b2, Char.ofNat b3] := by
      simp [ChunkType.render_as_text]
    have henc : utf8Encode [Char.ofNat b0, Char.ofNat b1, Char.ofNat b2,
        Char.ofNat b3] = [b0, b1, b2, b3] := by
      have t0 := toNat_ofNat_of_lt b0 (isLetterByte_lt b0 h0)
      have t1 := toNat_ofNat_of_lt b1 (isLetterByte_lt b1 h1)
      have t2 := toNat_ofNat_of_lt b2 (isLetterByte_lt b2 h2)
      have t3 := toNat_ofNat_of_lt b3 (isLetterByte_lt b3 h3)
      have u0 := utf8EncodeChar_ascii (Char.ofNat b0)
        (by rw [t0]; exact isLetterByte_lt b0 h0)
      have u1 := utf8EncodeChar_ascii (Char.ofNat b1)
        (by rw [t1]; exact isLetterByte_lt b1 h1)
      have u2 := utf8EncodeChar_ascii (Char.ofNat b2)
        (by rw [t2]; exact isLetterByte_lt b2 h2)
      have u3 := utf8EncodeChar_ascii (Char.ofNat b3)
        (by rw [t3]; exact isLetterByte_lt b3 h3)
      simp [utf8Encode, u0, u1, u2, u3, t0, t1, t2, t3]
    rw [ChunkType.from_str_text, hrender, henc]
    exact ChunkType.from_str_eq_ok _ (by simp) hall
  · intro t1 t2
    constructor
    · intro h
      rw [h]
    · intro h
      cases t1
      cases t2
      simp only [ChunkType.bytes] at h
      rw [h]

/-- Witness for C5 at the bytes of "RuSt". -/
theorem C5_witness :
    (∃ t, ChunkType.try_from 82 117 83 116 = .ok t ∧
      ChunkType.from_str_text (ChunkType.render_as_text t) = .ok t) ∧
    (∀ t1 t2 : ChunkType, t1 = t2 ↔ t1.bytes = t2.bytes) :=
  C5_path_equivalence 82 117 83 116 (by decide) (by decide) (by decide) (by decide)

/-- Claim C6: the four flags are exactly the case tests of bytes 0, 1,
2, 3 (uppercase for the first three, lowercase for the fourth), with
ASCII-only semantics; on the tag built from "RuSt" they evaluate to
true, false, true, true. -/
theorem C6_flag_derivation :
    (∀ c : ChunkType,
      (c.is_critical = true ↔ 65 ≤ c.bytes.getD 0 0 ∧ c.bytes.getD 0 0 ≤ 90) ∧
      (c.is_public = true ↔ 65 ≤ c.bytes.getD 1 0 ∧ c.bytes.getD 1 0 ≤ 90) ∧
      (c.is_reserved_bit_valid = true ↔
        65 ≤ c.bytes.getD 2 0 ∧ c.bytes.getD 2 0 ≤ 90) ∧
      (c.is_safe_to_copy = true ↔
        97 ≤ c.bytes.getD 3 0 ∧ c.bytes.getD 3 0 ≤ 122)) ∧
    (∃ t, ChunkType.from_str_text ['R', 'u', 'S', 't'] = .ok t ∧
      t.is_critical = true ∧ t.is_public = false ∧
      t.is_reserved_bit_valid = true ∧ t.is_safe_to_copy = true) := by
  constructor
  · intro c
    refine ⟨?_, ?_, ?_, ?_⟩ <;>
      simp [ChunkType.is_critical, ChunkType.is_public,
        ChunkType.is_reserved_bit_valid, ChunkType.is_safe_to_copy,
        ChunkType.bytes, isAsciiUppercase, isAsciiLowercase]
  · exact ⟨⟨[82, 117, 83, 116]⟩, rfl, rfl, rfl, rfl, rfl⟩

/-- Claim C7: `is_valid` returns exactly `is_reserved_bit_valid`; the
structurally well-formed tag from "Rust" (lowercase byte 2) constructs
successfully yet has `is_valid = false`. -/
theorem C7_is_valid_narrowing :
    (∀ c : ChunkType, c.is_valid = c.is_reserved_bit_valid) ∧
    (∃ t, ChunkType.from_str_text ['R', 'u', 's', 't'] = .ok t ∧
      t.is_valid = false) :=
  ⟨fun _ => rfl, ⟨⟨[82, 117, 115, 116]⟩, rfl, rfl⟩⟩

/-- Claim C8: every value produced by either constructor (the only
construction paths of the embedding) stores exactly 4 bytes, each an
ASCII letter; since every operation is a pure function of the stored
bytes and none of them rebuilds a value, the invariant holds for every
reachable value. -/
theorem C8_invariant :
    (∀ b0 b1 b2 b3 t, ChunkType.try_from b0 b1 b2 b3 = .ok t →
      t.bytes.length = 4 ∧ t.bytes.all ChunkType.is_valid_byte = true) ∧
    (∀ s t, ChunkType.from_str s = .ok t →
      t.bytes.length = 4 ∧ t.bytes.all ChunkType.is_valid_byte = true) := by
  constructor
  · intro b0 b1 b2 b3 t h
    obtain ⟨hbytes, hall⟩ := ChunkType.try_from_ok_inv b0 b1 b2 b3 t h
    simp only [ChunkType.bytes]
    rw [hbytes]
    exact ⟨rfl, hall⟩
  · intro s t h
    obtain ⟨hbytes, hlen, hall⟩ := ChunkType.from_str_ok_inv s t h
    simp only [ChunkType.bytes]
    rw [hbytes]
    exact ⟨hlen, hall⟩

/-- Witness for C8 at the tag built from the bytes of "RuSt". -/
theorem C8_witness :
    (⟨[82, 117, 83, 116]⟩ : ChunkType).bytes.length = 4 ∧
    (⟨[82, 117, 83, 116]⟩ : ChunkType).bytes.all ChunkType.is_valid_byte = true :=
  C8_invariant.1 82 117 83 116 ⟨[82, 117, 83, 116]⟩ rfl

/-- Claim C9: over all 256 byte values, `is_valid_byte` holds exactly
on the ASCII letter ranges; and both constructors accept an input
exactly when all its bytes satisfy `is_valid_byte`. -/
theorem C9_alphabet_predicate :
    (∀ b : Nat, b < 256 → (ChunkType.is_valid_byte b = true ↔ isLetterByte b)) ∧
    (∀ b0 b1 b2 b3, (∃ t, ChunkType.try_from b0 b1 b2 b3 = .ok t) ↔
      [b0, b1, b2, b3].all ChunkType.is_valid_byte = true) ∧
    (∀ s : List Nat, s.length = 4 →
      ((∃ t, ChunkType.from_str s = .ok t) ↔ s.all ChunkType.is_valid_byte = true)) := by
  refine ⟨?_, ?_, ?_⟩
  · intro b _
    exact is_valid_byte_iff_isLetterByte b
  · intro b0 b1 b2 b3
    constructor
    · rintro ⟨t, ht⟩
      exact (ChunkType.try_from_ok_inv b0 b1 b2 b3 t ht).2
    · intro hall
      exact ⟨⟨[b0, b1, b2, b3]⟩, ChunkType.try_from_eq_ok b0 b1 b2 b3 hall⟩
  · intro s hlen
    constructor
    · rintro ⟨t, ht⟩
      exact (ChunkType.from_str_ok_inv s t ht).2.2
    · intro hall
      exact ⟨⟨s⟩, ChunkType.from_str_eq_ok s hlen hall⟩

/-- Witness for C9 at byte 65 and the byte arrays of "RuSt" and "Ru1t". -/
theorem C9_witness :
    (ChunkType.is_valid_byte 65 = true ↔ isLetterByte 65) ∧
    ((∃ t, ChunkType.try_from 82 117 83 116 = .ok t) ↔
      [82, 117, 83, 116].all ChunkType.is_valid_byte = true) ∧
    ((∃ t, ChunkType.from_str [82, 117, 49, 116] = .ok t) ↔
      [82, 117, 49, 116].all ChunkType.is_valid_byte = true) :=
  ⟨C9_alphabet_predicate.1 65 (by decide),
   C9_alphabet_predicate.2.1 82 117 83 116,
   C9_alphabet_predicate.2.2 [82, 117, 49, 116] (by decide)⟩

/-- Claim C10: `from_str` measures length in UTF-8 bytes, not
characters: a string whose UTF-8 encoding is 4 bytes long but which
contains a non-ASCII character has fewer than 4 characters, passes the
length check, and fails with `BadByte` carrying the first byte of the
encoding that is not an ASCII letter — not with `BadLength`. -/
theorem C10_utf8_byte_length (cs : List Char)
    (hlen : (utf8Encode cs).length = 4)
    (hna : ∃ c ∈ cs, 128 ≤ c.toNat) :
    cs.length < 4 ∧
    ∃ pre b post, utf8Encode cs = pre ++ b :: post ∧
      pre.all ChunkType.is_valid_byte = true ∧
      ChunkType.is_valid_byte b = false ∧
      ChunkType.from_str_text cs = .error (.BadByte b) := by
  obtain ⟨c, hc, h128⟩ := hna
  constructor
  · have := length_lt_of_mem_nonascii cs c hc h128
    omega
  · have hex : ¬ (utf8Encode cs).all ChunkType.is_valid_byte = true := by
      obtain ⟨b, hbmem, hbinv⟩ := exists_invalid_in_utf8EncodeChar c h128
      have hmem : b ∈ utf8Encode cs := mem_utf8Encode_of_mem cs c b hc hbmem
      intro hall
      have := List.all_eq_true.mp hall b hmem
      rw [this] at hbinv
      exact absurd hbinv (by simp)
    obtain ⟨pre, b, post, heq, hpre, hb⟩ :=
      ChunkType.exists_firstInvalid_split _ hex
    refine ⟨pre, b, post, heq, hpre, hb, ?_⟩
    have hfi : ChunkType.firstInvalidByte (utf8Encode cs) = some b := by
      rw [heq]
      exact ChunkType.firstInvalidByte_append pre b post hpre hb
    rw [ChunkType.from_str_text, ChunkType.from_str, if_neg (by simp [hlen]), hfi]

/-- Witness for C10 at the string "€h" (4 UTF-8 bytes, 2 characters). -/
theorem C10_witness :
    (['€', 'h'] : List Char).length < 4 ∧
    ∃ pre b post, utf8Encode ['€', 'h'] = pre ++ b :: post ∧
      pre.all ChunkType.is_valid_byte = true ∧
      ChunkType.is_valid_byte b = false ∧
      ChunkType.from_str_text ['€', 'h'] = .error (.BadByte b) :=
  C10_utf8_byte_length ['€', 'h'] (by decide) ⟨'€', by decide, by decide⟩

end Pngme
